import Mathlib

/-!
Verification of the capnpy struct-constructor / layout-compiler component
(`capnpy/compiler/structor.py`) and of the buffered socket reader
(`capnpy/buffered.py`), via a shallow embedding in Lean 4.

Python strings are modelled as `List Char`; Python ints (raw field values,
two's-complement bit patterns) as `Nat`; the Python `struct` format string
as `List Char` of single-character codes.
-/

namespace Capnpy

/-- Physical field types, mirroring `capnpy.schema.Type` as used by
`structor.py`.  The schema module itself is not part of the sources under
verification; the enumeration of tags follows the spec's data model
(int8/16/32/64, unsigned variants, float32/64, bool, enum, text, data,
struct-reference, list, generic pointer, void). -/
inductive Ty where
  | void | bool | int8 | int16 | int32 | int64
  | uint8 | uint16 | uint32 | uint64
  | float32 | float64 | enum
  | text | data | structTy | listTy | anyPointer
  deriving DecidableEq, Repr

/-- Modelled from the spec: pointer-category types are text, data, list,
nested struct and the generic pointer (`Type.is_pointer` in
`capnpy.schema`, absent from the sources). -/
def Ty.is_pointer : Ty → Bool
  | .text | .data | .structTy | .listTy | .anyPointer => true
  | _ => false

/-- Modelled from the spec: declared element size in bytes
(`Type.get_size` in `capnpy.schema`, absent from the sources).  Sizes:
1/2/4/8 for the fixed-width integers, 4/8 for floats, 2 for enums, 8 for
every pointer-category type, 0 for void.  `bool` never reaches a size
computation on a supported path (layout resolution rejects it first). -/
def Ty.get_size : Ty → Nat
  | .int8 | .uint8 => 1
  | .int16 | .uint16 | .enum => 2
  | .int32 | .uint32 | .float32 => 4
  | .int64 | .uint64 | .float64 => 8
  | .text | .data | .structTy | .listTy | .anyPointer => 8
  | .void | .bool => 0

/-- Modelled from the spec: the single-character `struct`-module packing
code per type (`Type.get_fmt` in `capnpy.schema`, absent from the
sources): signed/unsigned integer of width 8/16/32/64, float32/64, or an
opaque pointer-sized slot for pointer-category fields.  Void and bool
never reach the format computation on a supported path. -/
def Ty.get_fmt : Ty → Char
  | .int8 => 'b'
  | .uint8 => 'B'
  | .int16 => 'h'
  | .uint16 | .enum => 'H'
  | .int32 => 'i'
  | .uint32 => 'I'
  | .int64 => 'q'
  | .uint64 => 'Q'
  | .float32 => 'f'
  | .float64 => 'd'
  | .text | .data | .structTy | .listTy | .anyPointer => 'q'
  | .void | .bool => 'x'

/-- `struct.calcsize` on a single format character.  `'x'` is the one-byte
padding code.  The layouts produced by the compiler are naturally aligned
(every byte offset is `declared_offset * element_size`), so native-alignment
padding never triggers and per-character sizes add up exactly. -/
def calcsizeChar (c : Char) : Nat :=
  if c = 'x' ∨ c = 'b' ∨ c = 'B' then 1
  else if c = 'h' ∨ c = 'H' then 2
  else if c = 'i' ∨ c = 'I' ∨ c = 'f' then 4
  else if c = 'q' ∨ c = 'Q' ∨ c = 'd' then 8
  else 0

/-- `struct.calcsize` of a whole format string (sum of the per-character
sizes; applicable because the generated strings are naturally aligned). -/
def calcsizeStr (s : List Char) : Nat := (s.map calcsizeChar).sum

/-- A schema field as consumed by `Structor`: either a slot (with declared
offset in multiples of the element size, physical type, raw default value
and the explicit-default flag) or a group (with a nullability flag and the
nested record's own field list).  Mirrors `capnpy.schema.Field` at the
interface `structor.py` uses. -/
inductive Field where
  | slot (name : String) (offset : Nat) (ty : Ty) (defaultValue : Nat)
         (hadExplicitDefault : Bool)
  | group (name : String) (nullable : Bool) (fields : List Field)

/-- `m._field_name(f)`: the argument/visible name of a field.  The module's
case conversion is the identity in this model. -/
def Field.fieldName : Field → String
  | .slot n _ _ _ _ => n
  | .group n _ _ => n

/-- `f.is_slot()`. -/
def Field.is_slot : Field → Bool
  | .slot _ _ _ _ _ => true
  | .group _ _ _ => false

/-- `f.is_void()`: a slot of void type. -/
def Field.is_void : Field → Bool
  | .slot _ _ .void _ _ => true
  | _ => false

/-- `f.slot.type.is_bool()` guarded by `f.is_slot()`. -/
def Field.isBoolSlot : Field → Bool
  | .slot _ _ .bool _ _ => true
  | _ => false

/-- `f.slot.get_fmt()` (void/bool/groups never reach it on supported
paths; they map to the padding code). -/
def Field.get_fmt : Field → Char
  | .slot _ _ ty _ _ => ty.get_fmt
  | .group _ _ _ => 'x'

/-- `Structor._slot_offset`: byte offset of a slot field,
`f.slot.offset * f.slot.get_size()`, shifted by `data_size * 8` when the
type is pointer-category.  Groups never reach this on supported paths
(the source would fail on `f.slot`); they map to 0. -/
def slot_offset (data_size : Nat) : Field → Nat
  | .slot _ off ty _ _ => off * ty.get_size + (if ty.is_pointer then data_size * 8 else 0)
  | .group _ _ _ => 0

/-- `f.is_text()`. -/
def Field.is_text : Field → Bool
  | .slot _ _ .text _ _ => true
  | _ => false

/-- `f.is_data()`. -/
def Field.is_data : Field → Bool
  | .slot _ _ .data _ _ => true
  | _ => false

/-- `f.is_struct()`. -/
def Field.is_struct : Field → Bool
  | .slot _ _ .structTy _ _ => true
  | _ => false

/-- `f.is_list()`. -/
def Field.is_list : Field → Bool
  | .slot _ _ .listTy _ _ => true
  | _ => false

/-- `f.is_primitive()`: fixed-width numeric slot (bool included; it cannot
reach the packing loop because layout resolution rejects it earlier). -/
def Field.is_primitive : Field → Bool
  | .slot _ _ ty _ _ =>
    match ty with
    | .int8 | .int16 | .int32 | .int64 | .uint8 | .uint16 | .uint32 | .uint64
    | .float32 | .float64 | .bool => true
    | _ => false
  | _ => false

/-- `f.is_enum()`. -/
def Field.is_enum : Field → Bool
  | .slot _ _ .enum _ _ => true
  | _ => false

/-- Python run-time values flowing through a synthesized constructor.
Raw integers are `Nat` bit patterns; `vnone` is Python's `None`; `seq` is
a tuple/list argument for plain-group unpacking; the `alloc*` constructors
are the placeholders returned by the builder collaborator's allocation
calls (`builder.alloc_text(offset, v)` and friends), recording which
offset was allocated and which value was handed over. -/
inductive Val where
  | int (n : Nat)
  | vnone
  | seq (vs : List Val)
  | str (s : String)
  | allocText (offset : Nat) (v : Val)
  | allocData (offset : Nat) (v : Val)
  | allocStruct (offset : Nat) (v : Val)
  | allocList (offset : Nat) (v : Val)

/-- Python's `x is None` test. -/
def Val.isNone : Val → Bool
  | .vnone => true
  | _ => false

/-- Default literal attached to an argument: for a slot,
`str(f.slot.defaultValue.as_pyobj())` (modelled semantically as the raw
default value); for a group, the placeholder `'None'` (the source's
`# XXX fixme` branch). -/
def Field.defaultLiteral : Field → Val
  | .slot _ _ _ dv _ => .int dv
  | .group _ _ _ => .vnone

/-- Accumulator built by `Structor.init_fields`: argument names, their
default literals, the flattened low-level fields paired with their
llnames, and the group records kept for later unpacking. -/
structure InitAcc where
  argnames : List String
  defaults : List Val
  llfields : List (String × Field)
  groups : List (String × Bool × List Field)

def emptyAcc : InitAcc := ⟨[], [], [], []⟩

/-- One iteration of the loop in `Structor.init_fields`: a group field
contributes its name as argument and one llfield per non-void *direct*
field of the group (named `groupname_fieldname`, as in `_append_group`,
which does not recurse); a slot field contributes its own name and one
llfield. -/
def initStep (acc : InitAcc) (f : Field) : InitAcc :=
  match f with
  | .group gname nullable gfs =>
      { argnames := acc.argnames ++ [gname]
        defaults := acc.defaults ++ [Val.vnone]
        llfields := acc.llfields ++
          (gfs.filter (fun g => !g.is_void)).map
            (fun g => (gname ++ "_" ++ g.fieldName, g))
        groups := acc.groups ++ [(gname, nullable, gfs)] }
  | .slot n off ty dv ed =>
      { argnames := acc.argnames ++ [n]
        defaults := acc.defaults ++ [Val.int dv]
        llfields := acc.llfields ++ [(n, .slot n off ty dv ed)]
        groups := acc.groups }

/-- `Field.new_slot('__which__', tag_offset/2, Type.new_int16())`: the
synthetic discriminator field (Python-2 integer division; no explicit
default). -/
def tagField (tag_offset : Nat) : Field :=
  .slot "__which__" (tag_offset / 2) .int16 0 false

/-- `Structor.init_fields`: fold over the declared fields, then append
the synthetic tag field (not added to `argnames`) when a discriminator
offset is present. -/
def initFields (tag_offset : Option Nat) (fields : List Field) : InitAcc :=
  let r := fields.foldl initStep emptyAcc
  match tag_offset with
  | some t => { r with llfields := r.llfields ++ [("__which__", tagField t)] }
  | none => r

/-- The `set` helper inside `Structor._compute_format`: write code `t` at
`offset` and overwrite the following `calcsize(t) - 1` positions with
`none` (the source's sentinel for bytes consumed by a multi-byte code).
As in the source, positions beyond the list are out-of-bounds; the
theorems only consider in-bounds layouts. -/
def setCode (fmt : List (Option Char)) (offset : Nat) (t : Char) : List (Option Char) :=
  let size := calcsizeChar t
  (List.range' (offset + 1) (size - 1)).foldl (fun a i => a.set i none)
    (fmt.set offset (some t))

/-- The loop of `Structor._compute_format` over `llfields`: a non-slot or
bool-typed field raises `Unsupported` (with `shortrepr` modelled by the
field name); void fields are skipped; every other field has its packing
code placed at its slot offset. -/
def placeFields (data_size : Nat) : List Field → List (Option Char) →
    Except String (List (Option Char))
  | [], fmt => .ok fmt
  | f :: fs, fmt =>
    if !f.is_slot || f.isBoolSlot then
      .error ("Unsupported field type: " ++ f.fieldName)
    else if f.is_void then
      placeFields data_size fs fmt
    else
      placeFields data_size fs (setCode fmt (slot_offset data_size f) f.get_fmt)

/-- `Structor._compute_format`: start from all-padding of length
`(data_size + ptrs_size) * 8`, place every field, then drop the `none`
sentinels and join.  The source's final
`assert struct.calcsize(fmt) == total_length` is exactly the property
proved below, so it is not baked into the definition. -/
def computeFormat (data_size ptrs_size : Nat) (llfields : List Field) :
    Except String (List Char) :=
  let total_length := (data_size + ptrs_size) * 8
  match placeFields data_size llfields (List.replicate total_length (some 'x')) with
  | .ok fmt => .ok (fmt.filterMap id)
  | .error e => .error e

/-- The state of a `Structor` object after `__init__`: on success `fmt`
holds the computed pack format; on `Unsupported`, `argnames` is reset to
`[]` and the diagnostic message is kept in `unsupported`
(`self._unsupported`). -/
structure Structor where
  data_size : Nat
  ptrs_size : Nat
  tag_offset : Option Nat
  tag_value : Option Nat
  argnames : List String
  params : List (String × Val)
  llfields : List (String × Field)
  groups : List (String × Bool × List Field)
  fmt : List Char
  unsupported : Option String

/-- `Structor.__init__`: run `init_fields` then `_compute_format`,
catching `Unsupported` (which resets `argnames` and records the message;
nothing escapes). -/
def structorInit (data_size ptrs_size : Nat) (fields : List Field)
    (tag_offset tag_value : Option Nat) : Structor :=
  let r := initFields tag_offset fields
  match computeFormat data_size ptrs_size (r.llfields.map Prod.snd) with
  | .ok fmt =>
      { data_size, ptrs_size, tag_offset, tag_value
        argnames := r.argnames
        params := r.argnames.zip r.defaults
        llfields := r.llfields
        groups := r.groups
        fmt
        unsupported := none }
  | .error e =>
      { data_size, ptrs_size, tag_offset, tag_value
        argnames := []
        params := r.argnames.zip r.defaults
        llfields := r.llfields
        groups := r.groups
        fmt := []
        unsupported := some e }

/-- Stable insertion into a list sorted by `key`: the new element goes in
front of the first element with a key not smaller than its own. -/
def insertByKey (key : α → Nat) (x : α) : List α → List α
  | [] => [x]
  | y :: ys => if key x ≤ key y then x :: y :: ys else y :: insertByKey key x ys

/-- Stable sort by `key`, modelling Python's stable `list.sort(key=...)`
(`self.llfields.sort(key=lambda f: self._slot_offset(f))`). -/
def sortByKey (key : α → Nat) : List α → List α
  | [] => []
  | x :: xs => insertByKey key x (sortByKey key xs)

/-- The llfields as reordered in `_decl_ctor` before building: sorted by
slot offset, stably. -/
def sortedLLFields (s : Structor) : List (String × Field) :=
  sortByKey (fun p => slot_offset s.data_size p.2) s.llfields

/-- Outcome of `Structor.declare`: on the unsupported path, a stub
carrying the captured diagnostic; otherwise the real constructor with its
pack format and the build-variable names in offset order. -/
inductive Decl where
  | stub (msg : String)
  | ctor (fmt : List Char) (buildnames : List String)
  deriving DecidableEq, Repr

/-- `Structor._decl_ctor` up to its compile-time checks: sort the
llfields by offset, compute the build names, and fail with `ValueError`
when the argument names are not pairwise distinct
(`len(argnames) != len(set(argnames))`; `len(set(...))` — the number of
distinct names — is the length of `dedup`). -/
def declCtor (s : Structor) : Except String Decl :=
  let sorted := sortedLLFields s
  let buildnames := (sorted.filter (fun p => !p.2.is_void)).map Prod.fst
  if s.argnames.length ≠ s.argnames.dedup.length then
    .error "Duplicate field name(s)"
  else
    .ok (.ctor s.fmt buildnames)

/-- `Structor.declare`: the unsupported path emits the always-failing
stub (whose signature `(*args, **kwargs)` accepts any argument list);
the supported path emits the real constructor. -/
def declare (s : Structor) : Except String Decl :=
  match s.unsupported with
  | some msg => .ok (.stub msg)
  | none => declCtor s

/-- Invoking the stub produced by `_decl_unsupported`: for every argument
list it raises `NotImplementedError` with the captured message. -/
def stubCall (msg : String) (_args : List Val) : Except String Val :=
  .error msg

/-! ### Semantics of the generated constructor body

The generated constructor is straight-line Python over local variables;
we model its variable environment as a total map `String → Val` (the
caller's arguments, with defaults already substituted for omitted ones)
and each generated statement as an environment update. -/

/-- Assignment to a local variable. -/
def upd (env : String → Val) (x : String) (v : Val) : String → Val :=
  fun y => if y = x then v else env y

/-- `Structor._unpack_nullable`, the generated code's effect on the two
synthetic variables: `if x is None: x_is_null = 1; x_value = 0
else: x_is_null = 0; x_value = x`.  Returns the pair
(value of `_is_null`, value of `_value`). -/
def unpackNullable (x : Val) : Val × Val :=
  if x.isNone then (.int 1, .int 0) else (.int 0, x)

/-- Positional tuple unpacking `n1, n2, ... = vs` (a length mismatch is a
Python run-time error, not modelled; the extra names/values are simply
left unbound). -/
def bindNames (env : String → Val) : List String → List Val → (String → Val)
  | n :: ns, v :: vs => bindNames (upd env n v) ns vs
  | _, _ => env

/-- `Structor._unpack_group`: `llname_1, ..., llname_k, = groupname`
for the group's non-void fields. -/
def unpackGroup (env : String → Val) (gname : String) (gfs : List Field) :
    String → Val :=
  let names := (gfs.filter (fun g => !g.is_void)).map
    (fun g => gname ++ "_" ++ g.fieldName)
  match env gname with
  | .seq vs => bindNames env names vs
  | _ => env

/-- The group-unpacking prologue of the generated constructor, in
declaration order (`for f, groupname, group in self.groups`). -/
def unpackGroups (groups : List (String × Bool × List Field))
    (env : String → Val) : String → Val :=
  groups.foldl (fun env g =>
    match g with
    | (gname, true, _) =>
        let p := unpackNullable (env gname)
        upd (upd env (gname ++ "_is_null") p.1) (gname ++ "_value") p.2
    | (gname, false, gfs) => unpackGroup env gname gfs) env

/-- The body of the per-llfield loop in `_decl_ctor`: text/data/struct/
list fields are replaced by the builder's allocation placeholder at the
field's offset; primitive/enum fields with an explicit default are
XOR-ed with it (`{arg} ^= {default_}` in `_field_primitive`); everything
else (primitives without an explicit default, void) is left unchanged. -/
def fieldTransform (data_size : Nat) (f : Field) (v : Val) : Val :=
  if f.is_text then .allocText (slot_offset data_size f) v
  else if f.is_data then .allocData (slot_offset data_size f) v
  else if f.is_struct then .allocStruct (slot_offset data_size f) v
  else if f.is_list then .allocList (slot_offset data_size f) v
  else if f.is_primitive || f.is_enum then
    match f with
    | .slot _ _ _ dv ed =>
        if ed then (match v with | .int n => .int (n ^^^ dv) | w => w) else v
    | _ => v
  else v

/-- The llfield loop applied to all (offset-sorted) llfields: each
generated statement rebinds the llname to the transformed value. -/
def applyTransforms (data_size : Nat) (lls : List (String × Field))
    (env : String → Val) : String → Val :=
  lls.foldl (fun env p => upd env p.1 (fieldTransform data_size p.2 (env p.1))) env

/-- The full straight-line body of a generated (supported) constructor,
as an environment: bind `__which__` to the literal tag value when this
record is a union arm, unpack the group arguments, then run the
per-llfield transforms in offset order. -/
def ctorEnv (s : Structor) (args : String → Val) : String → Val :=
  let env :=
    match s.tag_value with
    | some v => upd args "__which__" (.int v)
    | none => args
  let env := unpackGroups s.groups env
  applyTransforms s.data_size (sortedLLFields s) env

/-- The values handed to `builder.build(...)`: the final environment read
at the non-void llnames, in offset order. -/
def buildValues (s : Structor) (args : String → Val) : List Val :=
  let env := ctorEnv s args
  ((sortedLLFields s).filter (fun p => !p.2.is_void)).map (fun p => env p.1)

/-! ### `capnpy/buffered.py`: BufferedSocket.read -/

/-- State of a `BufferedSocket`: the internal buffer string, the read
cursor `i`, and the socket modelled as the queue of strings that
successive `recv` calls return; once the queue is exhausted, `recv`
returns `''` forever (connection closed).  An explicit empty string in
the queue likewise signals closure at that point. -/
structure BufferedSocket where
  buf : List Char
  i : Nat
  chunks : List (List Char)

/-- The `while total < size` loop of `BufferedSocket._fillbuf`:
accumulate received parts until `size` bytes are available or `recv`
returns `''`.  Returns the accumulated parts and the unread remainder of
the receive queue. -/
def fillbufLoop (size : Nat) : List (List Char) → Nat → List (List Char) →
    (List (List Char) × List (List Char))
  | chunks, total, parts =>
    if total < size then
      match chunks with
      | [] => (parts, [])
      | part :: rest =>
        if part = [] then (parts, rest)
        else fillbufLoop size rest (total + part.length) (parts ++ [part])
    else (parts, chunks)

/-- `BufferedSocket._fillbuf`: start from the unread tail of the buffer,
receive until `size` bytes are available (or the connection closes), and
reset the cursor. -/
def fillbuf (st : BufferedSocket) (size : Nat) : BufferedSocket :=
  let first := st.buf.drop st.i
  let r := fillbufLoop size st.chunks first.length [first]
  { buf := r.1.flatten, i := 0, chunks := r.2 }

/-- `BufferedSocket.read`: fast path slices `buf[i:i+size]` out of the
buffer; slow path refills first and returns `buf[:size]`. -/
def BufferedSocket.read (st : BufferedSocket) (size : Nat) :
    List Char × BufferedSocket :=
  let i := st.i
  let j := i + size
  if st.buf.length < j then
    let st' := fillbuf st size
    (st'.buf.take size, { st' with i := size })
  else
    ((st.buf.drop i).take size, { st with i := j })

/-! ### Derived notions used by the statements -/

/-- The pointer-category types in the words of the spec: text, data,
list, nested struct, generic pointer.  To be compared with the source's
`is_pointer` test. -/
def pointerCategory (ty : Ty) : Bool :=
  ty = .text || ty = .data || ty = .listTy || ty = .structTy || ty = .anyPointer

/-- The llfields contributed by one top-level field (slot or group), as
`init_fields` produces them: one entry for a slot, one entry per non-void
*direct* field for a group. -/
def llContribution : Field → List (String × Field)
  | .slot n off ty dv ed => [(n, .slot n off ty dv ed)]
  | .group gname _ gfs =>
      (gfs.filter (fun g => !g.is_void)).map
        (fun g => (gname ++ "_" ++ g.fieldName, g))

mutual
/-- Modelled from the spec (claims C8's words): the names of the non-void
slots *transitively* contained in a field, prefixed with the full dotted
chain of enclosing group names, recursively composed.  This is the
behaviour the spec asserts for group flattening; it is compared against
the source's non-recursive `_append_group`. -/
def specSlotNamesF (pre : String) : Field → List String
  | .slot n _ ty _ _ => if ty = .void then [] else [pre ++ "_" ++ n]
  | .group n _ gfs => specSlotNamesL (pre ++ "_" ++ n) gfs

/-- Transitive slot names of a list of fields under a common group-name
chain (companion of `specSlotNamesF`). -/
def specSlotNamesL (pre : String) : List Field → List String
  | [] => []
  | f :: fs => specSlotNamesF pre f ++ specSlotNamesL pre fs
end

/-- All local-variable names the group-unpacking prologue can assign:
`gname_is_null`/`gname_value` for a nullable group, the llnames of the
non-void fields for a plain group. -/
def writtenNames (groups : List (String × Bool × List Field)) : List String :=
  groups.flatMap (fun g =>
    match g with
    | (gname, true, _) => [gname ++ "_is_null", gname ++ "_value"]
    | (gname, false, gfs) =>
        (gfs.filter (fun f => !f.is_void)).map (fun f => gname ++ "_" ++ f.fieldName))

/-- Decoded byte extent of a partially built format buffer: consumed
positions (`none`) contribute nothing, every code character its
`calcsize`. -/
def decodedLen (fmt : List (Option Char)) : Nat :=
  (fmt.map (fun o => match o with | some c => calcsizeChar c | none => 0)).sum

/-! ## Structural lemmas about field flattening -/

theorem foldl_initStep_argnames (fields : List Field) (acc : InitAcc) :
    (fields.foldl initStep acc).argnames = acc.argnames ++ fields.map Field.fieldName := by
  induction fields generalizing acc with
  | nil => simp
  | cons f fs ih =>
    cases f <;> simp [initStep, ih, Field.fieldName, List.append_assoc]

theorem foldl_initStep_llfields (fields : List Field) (acc : InitAcc) :
    (fields.foldl initStep acc).llfields = acc.llfields ++ fields.flatMap llContribution := by
  induction fields generalizing acc with
  | nil => simp
  | cons f fs ih =>
    cases f <;> simp [initStep, ih, llContribution, List.append_assoc]

theorem initFields_argnames (tag_offset : Option Nat) (fields : List Field) :
    (initFields tag_offset fields).argnames = fields.map Field.fieldName := by
  cases tag_offset <;>
    simp [initFields, foldl_initStep_argnames, emptyAcc]

theorem initFields_llfields_none (fields : List Field) :
    (initFields none fields).llfields = fields.flatMap llContribution := by
  simp [initFields, foldl_initStep_llfields, emptyAcc]

theorem initFields_llfields_tag (t : Nat) (fields : List Field) :
    (initFields (some t) fields).llfields =
      (initFields none fields).llfields ++ [("__which__", tagField t)] := by
  simp [initFields, foldl_initStep_llfields, emptyAcc]

/-! ## Claims about the Layout Resolver's offsets (C2) -/

/-- Claim C2: for every slot field, the computed byte offset equals the
declared offset multiplied by the declared element size, shifted into the
pointer section by `data_size_in_words * 8` exactly when the physical
type is pointer-category (text, data, list, nested struct, generic
pointer). -/
theorem slot_offset_correct (data_size off dv : Nat) (n : String) (ty : Ty) (ed : Bool) :
    slot_offset data_size (.slot n off ty dv ed) =
      off * ty.get_size + (if pointerCategory ty then data_size * 8 else 0) := by
  cases ty <;> rfl

/-! ## Claims about the Default Encoder (C3) -/

/-- Claim C3: a primitive or enum slot with an explicit default `D`
stores `V xor D` for a supplied value `V`, hence `0` when the call is
made with the argument omitted (the parameter default being `D`); a slot
without an explicit default stores its value unchanged; and text, data,
struct and list fields are routed to the builder's allocation calls with
no XOR step. -/
theorem xor_default_encoding (data_size off dv v : Nat) (n : String) (ty : Ty)
    (hprim : ((Field.slot n off ty dv true).is_primitive
        || (Field.slot n off ty dv true).is_enum) = true) :
    fieldTransform data_size (.slot n off ty dv true) (.int v) = .int (v ^^^ dv)
    ∧ (Field.slot n off ty dv true).defaultLiteral = .int dv
    ∧ fieldTransform data_size (.slot n off ty dv true)
        ((Field.slot n off ty dv true).defaultLiteral) = .int 0
    ∧ (∀ w, fieldTransform data_size (.slot n off ty dv false) w = w)
    ∧ (∀ (w : Val) (o d : Nat) (e : Bool),
        fieldTransform data_size (.slot n o .text d e) w
          = .allocText (slot_offset data_size (.slot n o .text d e)) w
        ∧ fieldTransform data_size (.slot n o .data d e) w
          = .allocData (slot_offset data_size (.slot n o .data d e)) w
        ∧ fieldTransform data_size (.slot n o .structTy d e) w
          = .allocStruct (slot_offset data_size (.slot n o .structTy d e)) w
        ∧ fieldTransform data_size (.slot n o .listTy d e) w
          = .allocList (slot_offset data_size (.slot n o .listTy d e)) w) := by
  refine ⟨?_, rfl, ?_, ?_, ?_⟩
  · cases ty <;> simp_all [fieldTransform, Field.is_primitive, Field.is_enum,
      Field.is_text, Field.is_data, Field.is_struct, Field.is_list]
  · cases ty <;> simp_all [fieldTransform, Field.defaultLiteral, Field.is_primitive,
      Field.is_enum, Field.is_text, Field.is_data, Field.is_struct, Field.is_list]
  · intro w
    cases ty <;> simp_all [fieldTransform, Field.is_primitive, Field.is_enum,
      Field.is_text, Field.is_data, Field.is_struct, Field.is_list]
  · intro w o d e
    exact ⟨rfl, rfl, rfl, rfl⟩

/-- Witness for `xor_default_encoding` at an int16 slot with explicit
default 3 and supplied value 5. -/
theorem xor_default_encoding_witness :
    ((Field.slot "x" 0 .int16 3 true).is_primitive
        || (Field.slot "x" 0 .int16 3 true).is_enum) = true
    ∧ fieldTransform 1 (.slot "x" 0 .int16 3 true) (.int 5) = .int (5 ^^^ 3) :=
  ⟨by decide, (xor_default_encoding 1 0 3 5 "x" .int16 (by decide)).1⟩

/-! ## Claims about nullable-group unpacking (C4) -/

/-- Claim C4, counterexample: the generated nullable unpacking stores
`1`, not `0`, into the first synthetic low-level field (`x_is_null`) when
the absent sentinel is passed, so the claimed pair (presence = 0,
value = 0) is not what is written. -/
theorem nullable_unpacking_counterexample :
    unpackNullable Val.vnone = (Val.int 1, Val.int 0)
    ∧ ¬ unpackNullable Val.vnone = (Val.int 0, Val.int 0) := by
  refine ⟨rfl, fun h => ?_⟩
  have h' : (Val.int 1, Val.int 0) = (Val.int 0, Val.int 0) := h
  simp at h'

/-- Claim C4 as amended: constructing with the absent sentinel writes
`is_null = 1` and `value = 0` to the two synthetic low-level fields (the
first synthetic field is a null flag, so presence is *cleared* by storing
1); constructing with any non-sentinel value `X` — including `int 0` —
writes `is_null = 0` and `value = X`. -/
theorem nullable_unpacking (x : Val) (hx : x.isNone = false) :
    unpackNullable Val.vnone = (Val.int 1, Val.int 0)
    ∧ unpackNullable x = (.int 0, x) := by
  exact ⟨rfl, by simp [unpackNullable, hx]⟩

/-- Witness for `nullable_unpacking` at the non-sentinel value `int 0`. -/
theorem nullable_unpacking_witness :
    (Val.int 0).isNone = false
    ∧ unpackNullable (Val.int 0) = (Val.int 0, Val.int 0) :=
  ⟨rfl, (nullable_unpacking (Val.int 0) rfl).2⟩

/-! ## Claims about flattening order and argument arity (C9) -/

/-- Claim C9: flattening is deterministic and follows declaration order —
for `[group g (a b), slot c]` the low-level names are exactly
`[g_a, g_b, c]` — and every top-level field (groups included) contributes
exactly one entry, its own name, to the constructor's argument list. -/
theorem flattening_order (fields : List Field) (tag_offset : Option Nat) :
    (initFields tag_offset fields).argnames = fields.map Field.fieldName
    ∧ ((initFields none
        [Field.group "g" false [.slot "a" 0 .int8 0 false, .slot "b" 1 .int8 0 false],
         Field.slot "c" 2 .int8 0 false]).llfields.map Prod.fst
      = ["g_a", "g_b", "c"]) :=
  ⟨initFields_argnames tag_offset fields, by decide⟩

/-! ## Error propagation in the layout resolver -/

theorem placeFields_error_first (ds : Nat) (f₀ : Field)
    (hf : (!f₀.is_slot || f₀.isBoolSlot) = true) :
    ∀ (pre post : List Field) (fmt : List (Option Char)),
    (∀ g ∈ pre, g.is_slot = true ∧ g.isBoolSlot = false) →
    placeFields ds (pre ++ f₀ :: post) fmt
      = .error ("Unsupported field type: " ++ f₀.fieldName) := by
  intro pre
  induction pre with
  | nil =>
    intro post fmt _
    simp [placeFields, hf]
  | cons g gs ih =>
    intro post fmt hpre
    have hg := hpre g (List.mem_cons_self ..)
    have hrest : ∀ x ∈ gs, x.is_slot = true ∧ x.isBoolSlot = false :=
      fun x hx => hpre x (List.mem_cons_of_mem _ hx)
    by_cases hv : g.is_void = true
    · simp [placeFields, hg.1, hg.2, hv, ih post fmt hrest]
    · simp [placeFields, hg.1, hg.2, hv, ih post _ hrest]

theorem placeFields_error_of_mem (ds : Nat) :
    ∀ (lls : List Field) (fmt : List (Option Char)) (f₀ : Field),
    f₀ ∈ lls → (!f₀.is_slot || f₀.isBoolSlot) = true →
    ∃ e, placeFields ds lls fmt = .error e := by
  intro lls
  induction lls with
  | nil => intro fmt f₀ hmem; simp at hmem
  | cons g gs ih =>
    intro fmt f₀ hmem hf
    by_cases hgbad : (!g.is_slot || g.isBoolSlot) = true
    · exact ⟨"Unsupported field type: " ++ g.fieldName, by simp [placeFields, hgbad]⟩
    · rcases List.mem_cons.mp hmem with rfl | hmem'
      · exact absurd hf hgbad
      · have hgs : g.is_slot = true ∧ g.isBoolSlot = false := by
          constructor
          · by_contra hc
            exact hgbad (by simp [Bool.not_eq_true] at hc; simp [hc])
          · by_contra hc
            exact hgbad (by simp [Bool.not_eq_false] at hc; simp [hc])
        by_cases hv : g.is_void = true
        · obtain ⟨e, he⟩ := ih fmt f₀ hmem' hf
          exact ⟨e, by simp [placeFields, hgs.1, hgs.2, hv, he]⟩
        · obtain ⟨e, he⟩ := ih (setCode fmt (slot_offset ds g) g.get_fmt) f₀ hmem' hf
          exact ⟨e, by simp [placeFields, hgs.1, hgs.2, hv, he]⟩

/-! ## Claim about unsupported-representation isolation (C6) -/

/-- Claim C6: a record containing a non-slot low-level field or a
bool-typed slot has its layout computation fail for that record only —
`__init__` catches the failure, records the first offending field's
diagnostic, and emits a stub: `declare` succeeds (no compile-time
failure), the stub accepts any argument list, and every invocation fails
with exactly the captured diagnostic, which names the offending field. -/
theorem unsupported_record_stub (ds ps : Nat) (fields : List Field)
    (to_ tv : Option Nat) (pre post : List (String × Field)) (n₀ : String) (f₀ : Field)
    (hdecomp : (initFields to_ fields).llfields = pre ++ (n₀, f₀) :: post)
    (hpre : ∀ p ∈ pre, p.2.is_slot = true ∧ p.2.isBoolSlot = false)
    (hf : (!f₀.is_slot || f₀.isBoolSlot) = true) :
    (structorInit ds ps fields to_ tv).unsupported
        = some ("Unsupported field type: " ++ f₀.fieldName)
    ∧ (structorInit ds ps fields to_ tv).argnames = []
    ∧ declare (structorInit ds ps fields to_ tv)
        = .ok (.stub ("Unsupported field type: " ++ f₀.fieldName))
    ∧ ∀ args, stubCall ("Unsupported field type: " ++ f₀.fieldName) args
        = .error ("Unsupported field type: " ++ f₀.fieldName) := by
  have hplace : placeFields ds ((initFields to_ fields).llfields.map Prod.snd)
      (List.replicate ((ds + ps) * 8) (some 'x'))
      = .error ("Unsupported field type: " ++ f₀.fieldName) := by
    rw [hdecomp]
    simp only [List.map_append, List.map_cons]
    exact placeFields_error_first ds f₀ hf (pre.map Prod.snd) (post.map Prod.snd) _
      (fun g hg => by
        obtain ⟨p, hp, rfl⟩ := List.mem_map.mp hg
        exact hpre p hp)
  have hcf : computeFormat ds ps ((initFields to_ fields).llfields.map Prod.snd)
      = .error ("Unsupported field type: " ++ f₀.fieldName) := by
    simp [computeFormat, hplace]
  refine ⟨?_, ?_, ?_, fun args => rfl⟩ <;>
    simp [structorInit, hcf, declare]

/-- Witness for `unsupported_record_stub`: a record with a supported
int8 slot followed by a bool slot. -/
theorem unsupported_record_stub_witness :
    ((initFields none [Field.slot "x" 0 .int8 0 false, Field.slot "flag" 1 .bool 0 false]).llfields
      = [("x", Field.slot "x" 0 .int8 0 false)]
          ++ ("flag", Field.slot "flag" 1 .bool 0 false) :: [])
    ∧ declare (structorInit 1 0
        [Field.slot "x" 0 .int8 0 false, Field.slot "flag" 1 .bool 0 false] none none)
      = .ok (.stub "Unsupported field type: flag") := by
  refine ⟨rfl, ?_⟩
  exact (unsupported_record_stub 1 0
    [Field.slot "x" 0 .int8 0 false, Field.slot "flag" 1 .bool 0 false] none none
    [("x", Field.slot "x" 0 .int8 0 false)] [] "flag" (Field.slot "flag" 1 .bool 0 false)
    rfl (by decide) (by decide)).2.2.1

/-! ## Claim about duplicate argument names (C7) -/

/-- Claim C7, counterexample: a record whose two top-level fields both
flatten to the argument name `x` but which also contains a bool slot is
*not* rejected at compile time — the `Unsupported` path resets the
argument list and emits a stub, so constructor synthesis succeeds and the
duplicate names are never detected. -/
theorem duplicate_names_counterexample :
    ((initFields none [Field.slot "x" 0 .int8 0 false, Field.slot "x" 1 .int8 0 false,
        Field.slot "flag" 2 .bool 0 false]).argnames = ["x", "x", "flag"])
    ∧ ¬ (["x", "x", "flag"] : List String).Nodup
    ∧ declare (structorInit 1 0
        [Field.slot "x" 0 .int8 0 false, Field.slot "x" 1 .int8 0 false,
         Field.slot "flag" 2 .bool 0 false] none none)
      = .ok (.stub "Unsupported field type: flag") :=
  ⟨by decide, by decide, rfl⟩

/-- Claim C7 as amended: for a record whose layout computation succeeded
(it was not flagged unsupported), duplicate argument names make
constructor synthesis fail at compile time with the `ValueError`, before
any constructor (and hence any buffer-building code) is produced; an
unsupported record instead gets the stub without any duplicate check. -/
theorem duplicate_names_amended (s : Structor) (hsup : s.unsupported = none)
    (hdup : ¬ s.argnames.Nodup) :
    declare s = .error "Duplicate field name(s)" := by
  have hne : s.argnames.length ≠ s.argnames.dedup.length := by
    intro h
    have hsub := s.argnames.dedup_sublist
    have heq : s.argnames.dedup = s.argnames := hsub.eq_of_length h.symm
    exact hdup (heq ▸ s.argnames.nodup_dedup)
  simp [declare, hsup, declCtor, hne]

/-- Witness for `duplicate_names_amended`: a supported record with two
fields named `x`. -/
theorem duplicate_names_amended_witness :
    (structorInit 1 0 [Field.slot "x" 0 .int8 0 false, Field.slot "x" 1 .int8 0 false]
        none none).unsupported = none
    ∧ ¬ (structorInit 1 0 [Field.slot "x" 0 .int8 0 false, Field.slot "x" 1 .int8 0 false]
        none none).argnames.Nodup
    ∧ declare (structorInit 1 0
        [Field.slot "x" 0 .int8 0 false, Field.slot "x" 1 .int8 0 false] none none)
      = .error "Duplicate field name(s)" :=
  ⟨rfl, by decide,
    duplicate_names_amended _ rfl (by decide)⟩

/-! ## Claim about group flattening (C8) -/

/-- Claim C8, counterexample: for the group `g` containing a slot `a` and
a nested group `h` with slot `b`, the flattening of the source appends
one llfield for the nested group *itself* (named `g_h`, and not a slot),
instead of the transitively contained slot with the recursively composed
name `g_h_b` that the claim requires. -/
theorem group_flattening_counterexample :
    ((initFields none [Field.group "g" false
        [.slot "a" 0 .int8 0 false,
         Field.group "h" false [.slot "b" 1 .int8 0 false]]]).llfields.map Prod.fst
      = ["g_a", "g_h"])
    ∧ specSlotNamesL "g"
        [.slot "a" 0 .int8 0 false, Field.group "h" false [.slot "b" 1 .int8 0 false]]
      = ["g_a", "g_h_b"]
    ∧ (["g_a", "g_h"] : List String) ≠ ["g_a", "g_h_b"]
    ∧ ((initFields none [Field.group "g" false
        [.slot "a" 0 .int8 0 false,
         Field.group "h" false [.slot "b" 1 .int8 0 false]]]).llfields.map
          (fun p => p.2.is_slot)
      = [true, false]) := by
  refine ⟨by decide, by decide, by decide, by decide⟩

/-- Claim C8 as amended: flattening a group produces exactly one
low-level field per non-void *direct* field of the group (nested groups
included as single entries), each named `groupname_fieldname` with a
single level of prefixing — there is no recursion — and a group that
directly contains a nested (non-slot) field makes the whole record's
layout computation fail, flagging the record unsupported. -/
theorem group_flattening_amended (fields gfs : List Field) (gname : String) (nb : Bool)
    (ds ps : Nat) (to_ tv : Option Nat) (g₀ : Field)
    (hmem : Field.group gname nb gfs ∈ fields)
    (hg : g₀ ∈ gfs) (hgroup : g₀.is_slot = false) :
    llContribution (.group gname nb gfs)
      = (gfs.filter (fun g => !g.is_void)).map (fun g => (gname ++ "_" ++ g.fieldName, g))
    ∧ (initFields none fields).llfields = fields.flatMap llContribution
    ∧ (structorInit ds ps fields to_ tv).unsupported.isSome = true := by
  refine ⟨rfl, initFields_llfields_none fields, ?_⟩
  have hnv : g₀.is_void = false := by
    cases g₀ with
    | slot _ _ _ _ _ => simp [Field.is_slot] at hgroup
    | group _ _ _ => rfl
  have hllmem : g₀ ∈ (initFields to_ fields).llfields.map Prod.snd := by
    have h1 : (gname ++ "_" ++ g₀.fieldName, g₀) ∈ llContribution (.group gname nb gfs) := by
      simp only [llContribution, List.mem_map]
      exact ⟨g₀, List.mem_filter.mpr ⟨hg, by simp [hnv]⟩, rfl⟩
    have h2 : (gname ++ "_" ++ g₀.fieldName, g₀) ∈ fields.flatMap llContribution :=
      List.mem_flatMap.mpr ⟨_, hmem, h1⟩
    cases to_ with
    | none =>
      rw [initFields_llfields_none]
      exact List.mem_map_of_mem _ h2
    | some t =>
      rw [initFields_llfields_tag, initFields_llfields_none]
      exact List.mem_map_of_mem _ (List.mem_append_left _ h2)
  obtain ⟨e, he⟩ := placeFields_error_of_mem ds _
    (List.replicate ((ds + ps) * 8) (some 'x')) g₀ hllmem (by simp [hgroup])
  have hcf : ∃ e, computeFormat ds ps ((initFields to_ fields).llfields.map Prod.snd)
      = .error e := ⟨e, by simp [computeFormat, he]⟩
  obtain ⟨e', he'⟩ := hcf
  simp [structorInit, he']

/-- Witness for `group_flattening_amended` at the nested-group record
from the counterexample. -/
theorem group_flattening_amended_witness :
    Field.group "g" false
        [.slot "a" 0 .int8 0 false, Field.group "h" false [.slot "b" 1 .int8 0 false]]
      ∈ [Field.group "g" false
        [.slot "a" 0 .int8 0 false, Field.group "h" false [.slot "b" 1 .int8 0 false]]]
    ∧ (structorInit 1 0 [Field.group "g" false
        [.slot "a" 0 .int8 0 false,
         Field.group "h" false [.slot "b" 1 .int8 0 false]]] none none).unsupported.isSome
      = true := by
  refine ⟨List.mem_singleton.mpr rfl, ?_⟩
  exact (group_flattening_amended
    [Field.group "g" false
      [.slot "a" 0 .int8 0 false, Field.group "h" false [.slot "b" 1 .int8 0 false]]]
    [.slot "a" 0 .int8 0 false, Field.group "h" false [.slot "b" 1 .int8 0 false]]
    "g" false 1 0 none none
    (Field.group "h" false [.slot "b" 1 .int8 0 false])
    (List.mem_singleton.mpr rfl)
    (by simp) rfl).2.2

/-! ## The generated constructor and the union discriminator (C5) -/

theorem mem_insertByKey {α : Type} (key : α → Nat) (a x : α) (l : List α) :
    x ∈ insertByKey key a l ↔ x = a ∨ x ∈ l := by
  induction l with
  | nil => simp [insertByKey]
  | cons y ys ih =>
    simp only [insertByKey]
    split
    · simp [List.mem_cons]
    · simp only [List.mem_cons, ih]
      tauto

theorem mem_sortByKey {α : Type} (key : α → Nat) (x : α) (l : List α) :
    x ∈ sortByKey key l ↔ x ∈ l := by
  induction l with
  | nil => simp [sortByKey]
  | cons y ys ih => simp [sortByKey, mem_insertByKey, ih]

theorem bindNames_preserve (x : String) :
    ∀ (ns : List String) (vs : List Val) (env : String → Val),
    x ∉ ns → bindNames env ns vs x = env x := by
  intro ns
  induction ns with
  | nil => intro vs env _; cases vs <;> rfl
  | cons n ns ih =>
    intro vs env hx
    cases vs with
    | nil => rfl
    | cons v vs =>
      have hxn : x ≠ n := fun h => hx (h ▸ List.mem_cons_self ..)
      have hxs : x ∉ ns := fun h => hx (List.mem_cons_of_mem _ h)
      simp [bindNames, ih vs _ hxs, upd, hxn]

theorem unpackGroups_preserve (x : String) :
    ∀ (groups : List (String × Bool × List Field)) (env : String → Val),
    x ∉ writtenNames groups → unpackGroups groups env x = env x := by
  intro groups
  induction groups with
  | nil => intro env _; rfl
  | cons g gs ih =>
    intro env hx
    obtain ⟨gname, nb, gfs⟩ := g
    have hsplit : writtenNames ((gname, nb, gfs) :: gs)
        = (match ((gname, nb, gfs) : String × Bool × List Field) with
           | (gname, true, _) => [gname ++ "_is_null", gname ++ "_value"]
           | (gname, false, gfs) =>
               (gfs.filter (fun f => !f.is_void)).map (fun f => gname ++ "_" ++ f.fieldName))
          ++ writtenNames gs := by
      simp [writtenNames]
    rw [hsplit] at hx
    have hx2 : x ∉ writtenNames gs := fun h => hx (List.mem_append_right _ h)
    cases nb with
    | true =>
      have hx0 : x ≠ gname ++ "_is_null" :=
        fun h => hx (List.mem_append_left _ (by simp [h]))
      have hx1 : x ≠ gname ++ "_value" :=
        fun h => hx (List.mem_append_left _ (by simp [h]))
      have step : unpackGroups ((gname, true, gfs) :: gs) env
          = unpackGroups gs
              (upd (upd env (gname ++ "_is_null") (unpackNullable (env gname)).1)
                (gname ++ "_value") (unpackNullable (env gname)).2) := rfl
      rw [step, ih _ hx2]
      simp [upd, hx0, hx1]
    | false =>
      have hx0 : x ∉ (gfs.filter (fun f => !f.is_void)).map
          (fun f => gname ++ "_" ++ f.fieldName) :=
        fun h => hx (List.mem_append_left _ h)
      have step : unpackGroups ((gname, false, gfs) :: gs) env
          = unpackGroups gs (unpackGroup env gname gfs) := rfl
      rw [step, ih _ hx2]
      unfold unpackGroup
      cases env gname <;> first
        | rfl
        | exact bindNames_preserve x _ _ _ hx0

/-- The synthetic tag field is an int16 slot without explicit default, so
the packing loop leaves its value untouched. -/
theorem fieldTransform_tagField (ds t : Nat) (w : Val) :
    fieldTransform ds (tagField t) w = w := rfl

theorem applyTransforms_which (ds v t : Nat) :
    ∀ (lls : List (String × Field)) (env : String → Val),
    (∀ p ∈ lls, p.1 = "__which__" → p.2 = tagField t) →
    env "__which__" = .int v →
    applyTransforms ds lls env "__which__" = .int v := by
  intro lls
  induction lls with
  | nil => intro env _ henv; exact henv
  | cons p ps ih =>
    intro env hp henv
    have step : applyTransforms ds (p :: ps) env
        = applyTransforms ds ps (upd env p.1 (fieldTransform ds p.2 (env p.1))) := rfl
    rw [step]
    refine ih _ (fun q hq => hp q (List.mem_cons_of_mem _ hq)) ?_
    by_cases hx : p.1 = "__which__"
    · have hptag := hp p (List.mem_cons_self ..) hx
      simp [upd, hx, hptag, fieldTransform_tagField, henv]
    · have hx' : "__which__" ≠ p.1 := fun h => hx h.symm
      simp [upd, hx', henv]

theorem structorInit_llfields (ds ps : Nat) (fields : List Field) (to_ tv : Option Nat) :
    (structorInit ds ps fields to_ tv).llfields = (initFields to_ fields).llfields := by
  cases h : computeFormat ds ps ((initFields to_ fields).llfields.map Prod.snd) <;>
    simp [structorInit, h]

theorem structorInit_groups (ds ps : Nat) (fields : List Field) (to_ tv : Option Nat) :
    (structorInit ds ps fields to_ tv).groups = (initFields to_ fields).groups := by
  cases h : computeFormat ds ps ((initFields to_ fields).llfields.map Prod.snd) <;>
    simp [structorInit, h]

theorem structorInit_tag_value (ds ps : Nat) (fields : List Field) (to_ tv : Option Nat) :
    (structorInit ds ps fields to_ tv).tag_value = tv := by
  cases h : computeFormat ds ps ((initFields to_ fields).llfields.map Prod.snd) <;>
    simp [structorInit, h]

theorem structorInit_data_size (ds ps : Nat) (fields : List Field) (to_ tv : Option Nat) :
    (structorInit ds ps fields to_ tv).data_size = ds := by
  cases h : computeFormat ds ps ((initFields to_ fields).llfields.map Prod.snd) <;>
    simp [structorInit, h]

theorem structorInit_sup_argnames (ds ps : Nat) (fields : List Field) (to_ tv : Option Nat)
    (hsup : (structorInit ds ps fields to_ tv).unsupported = none) :
    (structorInit ds ps fields to_ tv).argnames = fields.map Field.fieldName := by
  cases h : computeFormat ds ps ((initFields to_ fields).llfields.map Prod.snd) with
  | ok fmt => simp [structorInit, h, initFields_argnames]
  | error e => simp [structorInit, h] at hsup

/-- Claim C5: for a union arm (discriminator offset `t`, value `v`), the
synthetic `__which__` field is appended to the low-level field sequence
after all declared fields, the external argument list is exactly the
declared field names (no discriminator argument), and — for every
supplied argument environment — the generated constructor binds
`__which__` to the literal `v`, which is handed to the builder as one of
the non-void build values. -/
theorem discriminator_fixed (ds ps t v : Nat) (fields : List Field) (args : String → Val)
    (hsup : (structorInit ds ps fields (some t) (some v)).unsupported = none)
    (hnames : ∀ f ∈ fields, f.fieldName ≠ "__which__")
    (hll : ∀ p ∈ (initFields none fields).llfields, p.1 ≠ "__which__")
    (hgr : "__which__" ∉ writtenNames (structorInit ds ps fields (some t) (some v)).groups) :
    (structorInit ds ps fields (some t) (some v)).llfields
        = (initFields none fields).llfields ++ [("__which__", tagField t)]
    ∧ (structorInit ds ps fields (some t) (some v)).argnames = fields.map Field.fieldName
    ∧ "__which__" ∉ (structorInit ds ps fields (some t) (some v)).argnames
    ∧ "__which__" ∈ ((sortedLLFields (structorInit ds ps fields (some t) (some v))).filter
        (fun p => !p.2.is_void)).map Prod.fst
    ∧ ctorEnv (structorInit ds ps fields (some t) (some v)) args "__which__" = .int v := by
  set s := structorInit ds ps fields (some t) (some v) with hs
  have hllf : s.llfields = (initFields none fields).llfields ++ [("__which__", tagField t)] := by
    rw [hs, structorInit_llfields, initFields_llfields_tag]
  have hargs : s.argnames = fields.map Field.fieldName := structorInit_sup_argnames _ _ _ _ _ hsup
  have hnarg : "__which__" ∉ s.argnames := by
    rw [hargs]
    intro hmem
    obtain ⟨f, hf, hfn⟩ := List.mem_map.mp hmem
    exact hnames f hf hfn
  have htagmem : ("__which__", tagField t) ∈ sortedLLFields s := by
    rw [sortedLLFields, mem_sortByKey, hllf]
    exact List.mem_append_right _ (List.mem_singleton.mpr rfl)
  have hbuild : "__which__" ∈ ((sortedLLFields s).filter (fun p => !p.2.is_void)).map Prod.fst := by
    refine List.mem_map.mpr ⟨("__which__", tagField t), ?_, rfl⟩
    exact List.mem_filter.mpr ⟨htagmem, rfl⟩
  refine ⟨hllf, hargs, hnarg, hbuild, ?_⟩
  have henv1 : (upd args "__which__" (Val.int v)) "__which__" = .int v := by simp [upd]
  have hctor : ctorEnv s args
      = applyTransforms s.data_size (sortedLLFields s)
          (unpackGroups s.groups (upd args "__which__" (.int v))) := by
    rw [ctorEnv, hs, structorInit_tag_value]
  rw [hctor]
  refine applyTransforms_which s.data_size v t (sortedLLFields s) _ ?_ ?_
  · intro p hp hp1
    rw [sortedLLFields, mem_sortByKey, hllf] at hp
    rcases List.mem_append.mp hp with hbase | htag
    · exact absurd hp1 (hll p hbase)
    · obtain rfl := List.mem_singleton.mp htag
      rfl
  · rw [unpackGroups_preserve _ _ _ hgr]
    exact henv1

/-- Witness for `discriminator_fixed`: a one-field union arm with tag
offset 2 and tag value 7, invoked with an arbitrary argument binding. -/
theorem discriminator_fixed_witness :
    (structorInit 1 0 [Field.slot "x" 0 .int8 0 false] (some 2) (some 7)).unsupported = none
    ∧ ctorEnv (structorInit 1 0 [Field.slot "x" 0 .int8 0 false] (some 2) (some 7))
        (fun _ => Val.int 9) "__which__" = .int 7 :=
  ⟨rfl,
    (discriminator_fixed 1 0 2 7 [Field.slot "x" 0 .int8 0 false] (fun _ => Val.int 9)
      rfl (by decide) (by decide) (by decide)).2.2.2.2⟩

/-! ## The PackFormat extent invariant (C1) -/

theorem decodedLen_cons (o : Option Char) (l : List (Option Char)) :
    decodedLen (o :: l)
      = (match o with | some c => calcsizeChar c | none => 0) + decodedLen l := by
  simp [decodedLen]

theorem calcsizeStr_cons (c : Char) (l : List Char) :
    calcsizeStr (c :: l) = calcsizeChar c + calcsizeStr l := by
  simp [calcsizeStr]

theorem calcsizeStr_filterMap (fmt : List (Option Char)) :
    calcsizeStr (fmt.filterMap id) = decodedLen fmt := by
  induction fmt with
  | nil => rfl
  | cons o fs ih =>
    cases o with
    | none =>
      rw [List.filterMap_cons_none rfl, decodedLen_cons, ih]
      simp
    | some c =>
      rw [List.filterMap_cons_some (show id (some c) = some c from rfl),
        calcsizeStr_cons, decodedLen_cons, ih]

theorem decodedLen_append (A B : List (Option Char)) :
    decodedLen (A ++ B) = decodedLen A + decodedLen B := by
  simp [decodedLen]

theorem decodedLen_replicate_pad (n : Nat) :
    decodedLen (List.replicate n (some 'x')) = n := by
  induction n with
  | zero => rfl
  | succ n ih =>
    rw [List.replicate_succ, decodedLen_cons, ih]
    have hx : calcsizeChar 'x' = 1 := by decide
    simp [hx]
    omega

theorem decodedLen_replicate_none (n : Nat) :
    decodedLen (List.replicate n none) = 0 := by
  induction n with
  | zero => rfl
  | succ n ih =>
    rw [List.replicate_succ, decodedLen_cons, ih]

theorem set_append_length {α : Type} (B : List α) (z w : α) (D : List α) :
    (B ++ z :: D).set B.length w = B ++ w :: D := by
  induction B with
  | nil => rfl
  | cons b bs ih => simp [List.set, ih]

theorem foldl_set_none (y : Option Char) :
    ∀ (k : Nat) (A : List (Option Char)) (x : Option Char) (C : List (Option Char)),
    (List.range' (A.length + 1) k).foldl (fun a i => a.set i none)
        (A ++ x :: (List.replicate k y ++ C))
      = A ++ x :: (List.replicate k none ++ C) := by
  intro k
  induction k with
  | zero => intro A x C; simp
  | succ k ih =>
    intro A x C
    rw [List.range'_succ, List.foldl_cons]
    have h1 : A ++ x :: (List.replicate (k + 1) y ++ C)
        = (A ++ [x]) ++ y :: (List.replicate k y ++ C) := by
      simp [List.replicate_succ]
    have h2 : ((A ++ [x]) ++ y :: (List.replicate k y ++ C)).set (A.length + 1) none
        = (A ++ [x]) ++ none :: (List.replicate k y ++ C) := by
      have hlen : (A ++ [x]).length = A.length + 1 := by simp
      rw [← hlen, set_append_length]
    rw [h1, h2]
    have h3 := ih (A ++ [x]) none C
    have hlen : (A ++ [x]).length = A.length + 1 := by simp
    rw [hlen] at h3
    rw [h3]
    simp [List.replicate_succ]

theorem setCode_decomp (A C : List (Option Char)) (t : Char) (h : 1 ≤ calcsizeChar t) :
    setCode (A ++ (List.replicate (calcsizeChar t) (some 'x') ++ C)) A.length t
      = A ++ (some t :: (List.replicate (calcsizeChar t - 1) none ++ C)) := by
  obtain ⟨k, hk⟩ : ∃ k, calcsizeChar t = k + 1 := ⟨calcsizeChar t - 1, by omega⟩
  simp only [setCode, hk]
  have h1 : A ++ (List.replicate (k + 1) (some 'x') ++ C)
      = A ++ (some 'x') :: (List.replicate k (some 'x') ++ C) := by
    simp [List.replicate_succ]
  rw [h1, set_append_length A (some 'x') (some t) (List.replicate k (some 'x') ++ C)]
  have h2 : k + 1 - 1 = k := by omega
  rw [h2, foldl_set_none (some 'x') k A (some t) C]

/-- Every supported non-void field's packing code occupies at least one
byte. -/
theorem one_le_calcsize_get_fmt (f : Field) (hs : f.is_slot = true)
    (hb : f.isBoolSlot = false) (hv : f.is_void = false) :
    1 ≤ calcsizeChar f.get_fmt := by
  cases f with
  | group _ _ _ => cases hs
  | slot n off ty dv ed =>
    cases ty <;> simp_all [Field.is_void, Field.isBoolSlot, Field.get_fmt] <;> decide

theorem getElem?_append_middle {α : Type} (A B B' C : List α) (j : Nat)
    (hlen : B.length = B'.length) (hout : j < A.length ∨ A.length + B.length ≤ j) :
    (A ++ (B ++ C))[j]? = (A ++ (B' ++ C))[j]? := by
  rcases hout with hj | hj
  · rw [List.getElem?_append_left hj, List.getElem?_append_left hj]
  · have h1 : A.length ≤ j := by omega
    rw [List.getElem?_append_right h1, List.getElem?_append_right h1]
    have h2 : B.length ≤ j - A.length := by omega
    rw [List.getElem?_append_right h2, List.getElem?_append_right (hlen ▸ h2), hlen]

/-- The central invariant of `_compute_format`: placing the packing codes
of a list of supported fields whose byte ranges lie inside the buffer,
are pairwise disjoint, and still hold padding, preserves the decoded byte
extent and the buffer length, and never fails. -/
theorem placeFields_decodedLen (ds : Nat) :
    ∀ (lls : List Field) (fmt : List (Option Char)),
    (∀ f ∈ lls, f.is_slot = true ∧ f.isBoolSlot = false) →
    (∀ f ∈ lls, f.is_void = false →
        slot_offset ds f + calcsizeChar f.get_fmt ≤ fmt.length) →
    (∀ f ∈ lls, f.is_void = false → ∀ j, slot_offset ds f ≤ j →
        j < slot_offset ds f + calcsizeChar f.get_fmt → fmt[j]? = some (some 'x')) →
    lls.Pairwise (fun f g => f.is_void = true ∨ g.is_void = true
        ∨ slot_offset ds f + calcsizeChar f.get_fmt ≤ slot_offset ds g
        ∨ slot_offset ds g + calcsizeChar g.get_fmt ≤ slot_offset ds f) →
    ∃ fmt₂, placeFields ds lls fmt = .ok fmt₂
        ∧ decodedLen fmt₂ = decodedLen fmt ∧ fmt₂.length = fmt.length := by
  intro lls
  induction lls with
  | nil => intro fmt _ _ _ _; exact ⟨fmt, rfl, rfl, rfl⟩
  | cons f fs ih =>
    intro fmt hsup hbound hx hdisj
    have hf := hsup f (List.mem_cons_self ..)
    have hfs_sup : ∀ g ∈ fs, g.is_slot = true ∧ g.isBoolSlot = false :=
      fun g hg => hsup g (List.mem_cons_of_mem _ hg)
    have hdisj1 := (List.pairwise_cons.mp hdisj).1
    have hdisj2 := (List.pairwise_cons.mp hdisj).2
    by_cases hv : f.is_void = true
    · obtain ⟨fmt₂, hok, hdl, hln⟩ := ih fmt hfs_sup
        (fun g hg => hbound g (List.mem_cons_of_mem _ hg))
        (fun g hg => hx g (List.mem_cons_of_mem _ hg)) hdisj2
      exact ⟨fmt₂, by simp [placeFields, hf.1, hf.2, hv, hok], hdl, hln⟩
    · have hv' : f.is_void = false := by
        rwa [Bool.not_eq_true] at hv
      have h1 : 1 ≤ calcsizeChar f.get_fmt := one_le_calcsize_get_fmt f hf.1 hf.2 hv'
      have hbf := hbound f (List.mem_cons_self ..) hv'
      -- decompose the buffer around the field's byte range
      obtain ⟨A, C, hfmt, hAlen⟩ :
          ∃ A C, fmt = A ++ (List.replicate (calcsizeChar f.get_fmt) (some 'x') ++ C)
            ∧ A.length = slot_offset ds f := by
        refine ⟨fmt.take (slot_offset ds f),
          fmt.drop (slot_offset ds f + calcsizeChar f.get_fmt), ?_, ?_⟩
        · have hmid : (fmt.drop (slot_offset ds f)).take (calcsizeChar f.get_fmt)
              = List.replicate (calcsizeChar f.get_fmt) (some 'x') := by
            have hmlen : ((fmt.drop (slot_offset ds f)).take (calcsizeChar f.get_fmt)).length
                = calcsizeChar f.get_fmt := by
              rw [List.length_take, List.length_drop]
              omega
            have hall : ∀ b ∈ (fmt.drop (slot_offset ds f)).take (calcsizeChar f.get_fmt),
                b = some 'x' := by
              intro b hb
              obtain ⟨j, hj⟩ := List.mem_iff_getElem?.mp hb
              rw [List.getElem?_take] at hj
              by_cases hjlt : j < calcsizeChar f.get_fmt
              · rw [if_pos hjlt, List.getElem?_drop] at hj
                have hxj := hx f (List.mem_cons_self ..) hv' (slot_offset ds f + j)
                  (by omega) (by omega)
                rw [hxj] at hj
                cases hj
                rfl
              · rw [if_neg hjlt] at hj
                cases hj
            calc (fmt.drop (slot_offset ds f)).take (calcsizeChar f.get_fmt)
                = List.replicate ((fmt.drop (slot_offset ds f)).take
                    (calcsizeChar f.get_fmt)).length (some 'x') :=
                  List.eq_replicate_of_mem hall
              _ = List.replicate (calcsizeChar f.get_fmt) (some 'x') := by rw [hmlen]
          conv_lhs => rw [← List.take_append_drop (slot_offset ds f) fmt]
          congr 1
          rw [← hmid]
          conv_lhs => rw [← List.take_append_drop (calcsizeChar f.get_fmt)
            (fmt.drop (slot_offset ds f))]
          rw [List.drop_drop]
        · rw [List.length_take]
          omega
      have hset : setCode fmt (slot_offset ds f) f.get_fmt
          = A ++ (some f.get_fmt :: (List.replicate (calcsizeChar f.get_fmt - 1) none ++ C)) := by
        rw [hfmt, ← hAlen]
        exact setCode_decomp A C f.get_fmt h1
      have hdl : decodedLen (setCode fmt (slot_offset ds f) f.get_fmt) = decodedLen fmt := by
        rw [hset, hfmt]
        simp [decodedLen_append, decodedLen_cons, decodedLen_replicate_pad,
          decodedLen_replicate_none]
      have hln : (setCode fmt (slot_offset ds f) f.get_fmt).length = fmt.length := by
        rw [hset, hfmt]
        simp
        omega
      have houtside : ∀ j, (j < slot_offset ds f
            ∨ slot_offset ds f + calcsizeChar f.get_fmt ≤ j) →
          (setCode fmt (slot_offset ds f) f.get_fmt)[j]? = fmt[j]? := by
        intro j hj
        rw [hset, hfmt]
        have hcons : (some f.get_fmt :: (List.replicate (calcsizeChar f.get_fmt - 1) none ++ C))
            = (some f.get_fmt :: List.replicate (calcsizeChar f.get_fmt - 1) none) ++ C := by
          simp
        rw [hcons]
        refine getElem?_append_middle A _ _ C j ?_ ?_
        · simp
          omega
        · simp only [List.length_cons, List.length_replicate, hAlen]
          omega
      obtain ⟨fmt₂, hok, hdl2, hln2⟩ := ih (setCode fmt (slot_offset ds f) f.get_fmt) hfs_sup
        (fun g hg hgv => by
          rw [hln]
          exact hbound g (List.mem_cons_of_mem _ hg) hgv)
        (fun g hg hgv j hj1 hj2 => by
          rcases hdisj1 g hg with h | h | h | h
          · rw [hv'] at h; cases h
          · rw [hgv] at h; cases h
          · rw [houtside j (Or.inr (by omega))]
            exact hx g (List.mem_cons_of_mem _ hg) hgv j hj1 hj2
          · rw [houtside j (Or.inl (by omega))]
            exact hx g (List.mem_cons_of_mem _ hg) hgv j hj1 hj2)
        hdisj2
      refine ⟨fmt₂, ?_, ?_, ?_⟩
      · simp [placeFields, hf.1, hf.2, hv, hok]
      · rw [hdl2, hdl]
      · rw [hln2, hln]

theorem computeFormat_ok_decodes (ds ps : Nat) (lls : List Field)
    (hsup : ∀ f ∈ lls, f.is_slot = true ∧ f.isBoolSlot = false)
    (hbound : ∀ f ∈ lls, f.is_void = false →
        slot_offset ds f + calcsizeChar f.get_fmt ≤ (ds + ps) * 8)
    (hdisj : lls.Pairwise (fun f g => f.is_void = true ∨ g.is_void = true
        ∨ slot_offset ds f + calcsizeChar f.get_fmt ≤ slot_offset ds g
        ∨ slot_offset ds g + calcsizeChar g.get_fmt ≤ slot_offset ds f)) :
    ∃ fmt, computeFormat ds ps lls = .ok fmt ∧ calcsizeStr fmt = (ds + ps) * 8 := by
  obtain ⟨fmt₂, hok, hdl, hln⟩ := placeFields_decodedLen ds lls
    (List.replicate ((ds + ps) * 8) (some 'x')) hsup
    (fun f hf hv => by
      rw [List.length_replicate]
      exact hbound f hf hv)
    (fun f hf hv j hj1 hj2 => by
      rw [List.getElem?_replicate, if_pos]
      have := hbound f hf hv
      omega)
    hdisj
  refine ⟨fmt₂.filterMap id, ?_, ?_⟩
  · simp [computeFormat, hok]
  · rw [calcsizeStr_filterMap, hdl, decodedLen_replicate_pad]

/-- Claim C1: for every record whose layout computation succeeds — its
low-level fields are supported (plain non-bool slots), fit inside the
record's `(data_size + ptrs_size) * 8` byte extent, and occupy pairwise
disjoint byte ranges — the computed PackFormat fully decodes to exactly
`(data_size + ptrs_size) * 8` bytes: starting from all padding, placing
each supported non-void field's code and consuming the following
`size - 1` bytes never changes the total decoded extent (all valid
`(data_size, ptrs_size)` pairs, `(0, 0)` included). -/
theorem packformat_extent (ds ps : Nat) (fields : List Field) (to_ tv : Option Nat)
    (hsup : ∀ f ∈ (initFields to_ fields).llfields.map Prod.snd,
        f.is_slot = true ∧ f.isBoolSlot = false)
    (hbound : ∀ f ∈ (initFields to_ fields).llfields.map Prod.snd, f.is_void = false →
        slot_offset ds f + calcsizeChar f.get_fmt ≤ (ds + ps) * 8)
    (hdisj : ((initFields to_ fields).llfields.map Prod.snd).Pairwise
        (fun f g => f.is_void = true ∨ g.is_void = true
          ∨ slot_offset ds f + calcsizeChar f.get_fmt ≤ slot_offset ds g
          ∨ slot_offset ds g + calcsizeChar g.get_fmt ≤ slot_offset ds f)) :
    (structorInit ds ps fields to_ tv).unsupported = none
    ∧ calcsizeStr (structorInit ds ps fields to_ tv).fmt = (ds + ps) * 8 := by
  obtain ⟨fmt, hok, hsz⟩ := computeFormat_ok_decodes ds ps _ hsup hbound hdisj
  constructor <;> simp [structorInit, hok, hsz]

/-- Witness for `packformat_extent`: a record with an int8 in the data
section and a text pointer (`data_size = ptrs_size = 1`), and the empty
record with `(data_size, ptrs_size) = (0, 0)`. -/
theorem packformat_extent_witness :
    ((structorInit 1 1 [Field.slot "x" 0 .int8 0 false, Field.slot "t" 0 .text 0 false]
        none none).unsupported = none
      ∧ calcsizeStr (structorInit 1 1
          [Field.slot "x" 0 .int8 0 false, Field.slot "t" 0 .text 0 false]
          none none).fmt = (1 + 1) * 8)
    ∧ ((structorInit 0 0 [] none none).unsupported = none
      ∧ calcsizeStr (structorInit 0 0 [] none none).fmt = (0 + 0) * 8) :=
  ⟨packformat_extent 1 1 [Field.slot "x" 0 .int8 0 false, Field.slot "t" 0 .text 0 false]
      none none (by decide) (by decide) (by decide),
    packformat_extent 0 0 [] none none (by decide) (by decide) (by decide)⟩

/-! ## The buffered socket reader (C10) -/

theorem fillbufLoop_join (size : Nat) :
    ∀ (chunks : List (List Char)) (parts : List (List Char)),
    (∀ c ∈ chunks, c ≠ []) →
    min size (fillbufLoop size chunks parts.flatten.length parts).1.flatten.length
      = min size (parts.flatten.length + (chunks.map List.length).sum) := by
  intro chunks
  induction chunks with
  | nil =>
    intro parts _
    rw [fillbufLoop]
    split <;> simp
  | cons c rest ih =>
    intro parts hne
    have hc : c ≠ [] := hne c (List.mem_cons_self ..)
    have hrest : ∀ x ∈ rest, x ≠ [] := fun x hx => hne x (List.mem_cons_of_mem _ hx)
    rw [fillbufLoop]
    by_cases hlt : parts.flatten.length < size
    · simp only [if_pos hlt, if_neg hc]
      have harg : parts.flatten.length + c.length = (parts ++ [c]).flatten.length := by
        simp
      rw [harg]
      rw [ih (parts ++ [c]) hrest]
      simp [Nat.add_assoc]
    · simp only [if_neg hlt]
      have h1 : size ≤ parts.flatten.length := Nat.le_of_not_lt hlt
      rw [Nat.min_eq_left h1, Nat.min_eq_left (Nat.le_trans h1 (Nat.le_add_right _ _))]

/-- Claim C10: `BufferedSocket.read(size)` never returns more than `size`
bytes; under the socket model (each pending receive is non-empty, and an
exhausted queue means the connection signalled closure with an empty
receive), the returned length is exactly `min size supply`, where supply
is the unread buffer plus everything the socket can still deliver — so
the result is exactly `size` whenever enough data arrives, and shorter
(possibly empty) exactly when closure happens first. -/
theorem read_length (st : BufferedSocket) (size : Nat) :
    ((st.read size).1).length ≤ size
    ∧ ((∀ c ∈ st.chunks, c ≠ []) →
        ((st.read size).1).length
          = min size ((st.buf.drop st.i).length + (st.chunks.map List.length).sum)) := by
  by_cases hfast : st.buf.length < st.i + size
  · have hread : (st.read size).1 = (fillbuf st size).buf.take size := by
      simp [BufferedSocket.read, hfast]
    constructor
    · rw [hread]
      simp [Nat.min_le_left]
    · intro hne
      rw [hread]
      have hbuf : (fillbuf st size).buf
          = (fillbufLoop size st.chunks (st.buf.drop st.i).length [st.buf.drop st.i]).1.flatten := by
        simp [fillbuf]
      have hlen : (st.buf.drop st.i).length = ([st.buf.drop st.i] : List (List Char)).flatten.length := by
        simp
      rw [List.length_take, hbuf, hlen, fillbufLoop_join size st.chunks [st.buf.drop st.i] hne]
  · have hread : (st.read size).1 = (st.buf.drop st.i).take size := by
      simp [BufferedSocket.read, hfast]
    have hge : size ≤ (st.buf.drop st.i).length := by
      simp only [List.length_drop]
      omega
    constructor
    · rw [hread]
      simp [Nat.min_le_left]
    · intro _
      rw [hread, List.length_take, Nat.min_eq_left hge,
        Nat.min_eq_left (Nat.le_trans hge (Nat.le_add_right _ _))]

/-- Witness for `read_length`: a buffer holding `"hello"` read from
position 1 with two pending receives of 2 and 3 bytes, asked for 10
bytes: it returns the 9 available bytes. -/
theorem read_length_witness :
    (∀ c ∈ (BufferedSocket.mk "hello".toList 1 [['a', 'b'], ['c', 'd', 'e']]).chunks, c ≠ [])
    ∧ ((BufferedSocket.mk "hello".toList 1 [['a', 'b'], ['c', 'd', 'e']]).read 10).1.length
      = min 10 ((("hello".toList : List Char).drop 1).length
          + (([['a', 'b'], ['c', 'd', 'e']] : List (List Char)).map List.length).sum) :=
  ⟨by decide,
    (read_length (BufferedSocket.mk "hello".toList 1 [['a', 'b'], ['c', 'd', 'e']]) 10).2
      (by decide)⟩

end Capnpy
